import Mathlib

set_option maxRecDepth 8000

/-
Formal model of the virtex configuration system (src/virtex/config.py) and the
word-and-positional embedding module (src/viswsl/modules/embedding.py).

The configuration tree itself is a yacs CfgNode; the yacs operations
(merge_from_file, merge_from_list, freeze, dump) are not part of the
repository sources, so they are modelled from the specification text.
The schema defaults, the construction pipeline, and the Config wrapper
class are translated from src/virtex/config.py.
-/

namespace Virtex

mutual
/-- Values stored in a configuration tree node.  Mirrors the Python value
types used by the schema in src/virtex/config.py: int, float, bool, str,
list-of-str, list-of-int, and nested node.  A node carries the frozen flag
of the spec (Modelled from the spec: "freeze(node): transitions the tree
(and all nested subtrees) to immutable").  Python floats are idealized as
exact rationals. -/
inductive CfgV where
  | vInt (n : Int)
  | vFloat (q : ℚ)
  | vBool (b : Bool)
  | vStr (s : String)
  | vStrList (xs : List String)
  | vIntList (xs : List Int)
  | vNode (frozen : Bool) (entries : CfgEntries)
  deriving DecidableEq

/-- The ordered key-value entries of a configuration node. -/
inductive CfgEntries where
  | nil
  | cons (k : String) (v : CfgV) (rest : CfgEntries)
  deriving DecidableEq
end

/-- Errors of the configuration store, named as in the spec:
UnknownKeyError, TypeMismatchError, ImmutabilityError. -/
inductive CfgErr where
  | unknownKey
  | typeMismatch
  | immutability
  deriving DecidableEq

/-- Build node entries from a list of key-value pairs. -/
def entriesOfList : List (String × CfgV) → CfgEntries
  | [] => .nil
  | (k, v) :: rest => .cons k v (entriesOfList rest)

/-- Ordered lookup of a key among the entries of a node. -/
def lookupE : CfgEntries → String → Option CfgV
  | .nil, _ => none
  | .cons k v rest, key => if k = key then some v else lookupE rest key

/-- In-place replacement of the value at an existing key, preserving order. -/
def replaceE : CfgEntries → String → CfgV → CfgEntries
  | .nil, _, _ => .nil
  | .cons k v rest, key, w =>
      if k = key then .cons k w rest else .cons k v (replaceE rest key w)

/-- Append one entry at the end (a fresh key added to a mutable node). -/
def appendE : CfgEntries → String → CfgV → CfgEntries
  | .nil, k, v => .cons k v .nil
  | .cons k0 v0 rest, k, v => .cons k0 v0 (appendE rest k v)

/-- Modelled from the spec: a TypeMismatchError occurs when an override
value type disagrees with the schema default type at that path.  The two
list value types both count as the Python type list. -/
def typeMatch : CfgV → CfgV → Bool
  | .vInt _, .vInt _ => true
  | .vFloat _, .vFloat _ => true
  | .vBool _, .vBool _ => true
  | .vStr _, .vStr _ => true
  | .vStrList _, .vStrList _ => true
  | .vStrList _, .vIntList _ => true
  | .vIntList _, .vStrList _ => true
  | .vIntList _, .vIntList _ => true
  | .vNode _ _, .vNode _ _ => true
  | _, _ => false

/-- Modelled from the spec: merge_from_file "parses a structured text file
of the same nested-key shape and overwrites matching existing keys; fails
... if the file references a key absent from the schema, or ... if a
value type disagrees".  Keys of the file tree are processed in order; on
the first error the merge stops, keeping the keys applied so far
("earlier-applied keys in the same merge remain").  Nested nodes are merged
recursively.  Returns the (possibly partially updated) tree and an optional
error. -/
def mergeEntries : CfgEntries → CfgEntries → CfgEntries × Option CfgErr
  | .nil, bes => (bes, none)
  | .cons k v rest, bes =>
    match lookupE bes k with
    | none => (bes, some .unknownKey)
    | some bv =>
      if typeMatch v bv then
        match v, bv with
        | .vNode _ aes2, .vNode bf2 bes2 =>
          match mergeEntries aes2 bes2 with
          | (sub, some err) => (replaceE bes k (.vNode bf2 sub), some err)
          | (sub, none) => mergeEntries rest (replaceE bes k (.vNode bf2 sub))
        | _, _ => mergeEntries rest (replaceE bes k v)
      else (bes, some .typeMismatch)

/-- Modelled from the spec: merge a parsed file tree into a configuration
tree (the yacs call self.merge_from_file in Config.__init__,
src/virtex/config.py line 187). -/
def mergeFromFile (c : CfgV) (file : CfgV) : CfgV × Option CfgErr :=
  match file, c with
  | .vNode _ aes, .vNode bf bes =>
      match mergeEntries aes bes with
      | (res, e) => (.vNode bf res, e)
  | _, c2 => (c2, some .typeMismatch)

/-- Modelled from the spec: one assignment of merge_from_list.  The dot
path is traversed segment by segment; a missing key (or a path through a
non-node value) is an UnknownKeyError; at the final segment the value type
must match the existing value.  Only the final assignment modifies the
tree, so an error leaves the tree unchanged. -/
def setAtPath : CfgV → List String → CfgV → CfgV × Option CfgErr
  | c, [], _ => (c, some .unknownKey)
  | .vNode f es, [k], v =>
      match lookupE es k with
      | none => (.vNode f es, some .unknownKey)
      | some old =>
        if typeMatch v old then (.vNode f (replaceE es k v), none)
        else (.vNode f es, some .typeMismatch)
  | .vNode f es, k :: k2 :: rest, v =>
      match lookupE es k with
      | none => (.vNode f es, some .unknownKey)
      | some sub =>
        match setAtPath sub (k2 :: rest) v with
        | (_, some e) => (.vNode f es, some e)
        | (sub2, none) => (.vNode f (replaceE es k sub2), none)
  | c, _ :: _, _ => (c, some .unknownKey)

/-- Split a string at each dot, as the Python full_key.split(".") used by
merge_from_list does (the core splitOn is replicated here so that the
definition stays kernel-computable). -/
def splitCharsAux : List Char → List Char → List String
  | [], acc => [String.mk acc.reverse]
  | c :: rest, acc =>
      if c = '.' then String.mk acc.reverse :: splitCharsAux rest []
      else splitCharsAux rest (c :: acc)

/-- Split a dot path into its segments. -/
def splitDots (s : String) : List String := splitCharsAux s.data []

/-- Modelled from the spec: merge_from_list "applies a flat ordered
sequence of (dot-path string, value) pairs; same failure modes; later
entries in the list override earlier ones if paths collide".  Processing
stops at the first failing pair, keeping earlier assignments. -/
def mergeFromList : CfgV → List (String × CfgV) → CfgV × Option CfgErr
  | c, [] => (c, none)
  | c, (fullKey, v) :: rest =>
    match setAtPath c (splitDots fullKey) v with
    | (c2, none) => mergeFromList c2 rest
    | (c2, some e) => (c2, some e)

mutual
/-- Modelled from the spec: freeze "transitions the tree (and all nested
subtrees) to immutable". -/
def freeze : CfgV → CfgV
  | .vNode _ es => .vNode true (freezeEntries es)
  | v => v

def freezeEntries : CfgEntries → CfgEntries
  | .nil => .nil
  | .cons k v rest => .cons k (freeze v) (freezeEntries rest)
end

mutual
/-- Strip all frozen flags; the value content of a tree. -/
def stripFrozen : CfgV → CfgV
  | .vNode _ es => .vNode false (stripEntries es)
  | v => v

def stripEntries : CfgEntries → CfgEntries
  | .nil => .nil
  | .cons k v rest => .cons k (stripFrozen v) (stripEntries rest)
end

/-- Attribute-style read of one key on a node (reads are unrestricted,
frozen or not). -/
def getAttr : CfgV → String → Option CfgV
  | .vNode _ es, k => lookupE es k
  | _, _ => none

/-- Attribute-style read along a dot path into nested subtrees. -/
def getPath : CfgV → List String → Option CfgV
  | c, [] => some c
  | c, k :: rest =>
    match getAttr c k with
    | none => none
    | some v => getPath v rest

/-- Modelled from the spec: an attribute write on a tree node.  A frozen
node rejects the write with ImmutabilityError; a mutable node replaces an
existing key or appends a new one (this is how the schema function
populates defaults). -/
def setAttr : CfgV → String → CfgV → CfgV × Option CfgErr
  | .vNode true es, _, _ => (.vNode true es, some .immutability)
  | .vNode false es, k, v =>
      match lookupE es k with
      | some _ => (.vNode false (replaceE es k v), none)
      | none => (.vNode false (appendE es k v), none)
  | c, _, _ => (c, some .unknownKey)

/-- An attribute-chain write (for example cfg.OPTIM.BATCH_SIZE = v):
traverse by reads down to the parent node, then attempt the attribute
write there.  An error leaves the tree unchanged. -/
def writeAtPath : CfgV → List String → CfgV → CfgV × Option CfgErr
  | c, [], _ => (c, some .unknownKey)
  | c, [k], v => setAttr c k v
  | c, k :: k2 :: rest, v =>
    match getAttr c k with
    | none => (c, some .unknownKey)
    | some sub =>
      match writeAtPath sub (k2 :: rest) v with
      | (_, some e) => (c, some e)
      | (sub2, none) =>
        match c with
        | .vNode f es => (.vNode f (replaceE es k sub2), none)
        | c2 => (c2, some .unknownKey)

/-- The schema default entries built in Config.__init__
(src/virtex/config.py lines 44 to 181), with every key in source order. -/
def defaultEntries : CfgEntries :=
  entriesOfList [
    ("RANDOM_SEED", .vInt 0),
    ("FP16_OPT", .vInt 2),
    ("DATA", .vNode false (entriesOfList [
      ("ROOT", .vStr "datasets/coco"),
      ("TOKENIZER_VOCAB", .vStr "datasets/vocab/coco_10k.vocab"),
      ("TOKENIZER_MODEL", .vStr "datasets/vocab/coco_10k.model"),
      ("IMAGE_CROP_SIZE", .vInt 224),
      ("MAX_CAPTION_LENGTH", .vInt 30),
      ("USE_SINGLE_CAPTION", .vBool false),
      ("USE_PERCENTAGE", .vFloat 100.0),
      ("IMAGE_TRANSFORM_TRAIN", .vStrList [
        "random_resized_crop", "horizontal_flip", "color_jitter", "normalize"]),
      ("IMAGE_TRANSFORM_VAL", .vStrList [
        "smallest_resize", "center_crop", "normalize"]),
      ("WORD_MASKING", .vNode false (entriesOfList [
        ("MASK_PROPORTION", .vFloat 0.15),
        ("MASK_PROBABILITY", .vFloat 0.85),
        ("REPLACE_PROBABILITY", .vFloat 0.10)]))])),
    ("MODEL", .vNode false (entriesOfList [
      ("NAME", .vStr "bicaptioning"),
      ("VISUAL", .vNode false (entriesOfList [
        ("NAME", .vStr "torchvision::resnet50"),
        ("FEATURE_SIZE", .vInt 2048),
        ("PRETRAINED", .vBool false),
        ("FROZEN", .vBool false)])),
      ("TEXTUAL", .vNode false (entriesOfList [
        ("NAME", .vStr "transformer_postnorm::L1_H1024_A16_F4096"),
        ("DROPOUT", .vFloat 0.1)]))])),
    ("OPTIM", .vNode false (entriesOfList [
      ("OPTIMIZER_NAME", .vStr "sgd"),
      ("SGD_MOMENTUM", .vFloat 0.9),
      ("WEIGHT_DECAY", .vFloat 0.0001),
      ("NO_DECAY", .vStr ".*textual.*(norm.*|bias)"),
      ("CLIP_GRAD_NORM", .vInt 10),
      ("USE_LOOKAHEAD", .vBool false),
      ("LOOKAHEAD_ALPHA", .vFloat 0.5),
      ("LOOKAHEAD_STEPS", .vInt 5),
      ("BATCH_SIZE", .vInt 256),
      ("CNN_LR", .vFloat 0.2),
      ("LR", .vFloat 0.001),
      ("NUM_ITERATIONS", .vInt 500000),
      ("WARMUP_STEPS", .vInt 10000),
      ("LR_DECAY_NAME", .vStr "cosine"),
      ("LR_STEPS", .vIntList []),
      ("LR_GAMMA", .vFloat 0.1)]))]

/-- The schema default tree: a mutable node holding the default entries. -/
def defaultConfig : CfgV := .vNode false defaultEntries

/-- Hook for parameters derived from existing parameters
(Config.add_derived_params, src/virtex/config.py lines 195 to 199):
the body is pass, so the tree is returned unchanged. -/
def addDerivedParams (c : CfgV) : CfgV := c

/-- The file-override stage of Config.__init__ (src/virtex/config.py lines
186 to 187): when a config file is given, its parsed tree is merged into
the defaults; otherwise the defaults pass through.  The file argument is
the parsed content of the YAML file. -/
def fileStage : Option CfgV → CfgV × Option CfgErr
  | none => (defaultConfig, none)
  | some f => mergeFromFile defaultConfig f

/-- Config.__init__ (src/virtex/config.py lines 41 to 193): build the
schema defaults, merge the YAML file overrides, merge the override list,
add derived parameters, then freeze.  An error at any stage propagates
(the Python exception aborts construction before the later stages run),
returning the tree as mutated so far. -/
def configInit (file : Option CfgV) (overrideList : List (String × CfgV)) :
    CfgV × Option CfgErr :=
  match fileStage file with
  | (c1, some e) => (c1, some e)
  | (c1, none) =>
    match mergeFromList c1 overrideList with
    | (c2, some e) => (c2, some e)
    | (c2, none) => (freeze (addDerivedParams c2), none)

/-- Modelled from the spec: dump "serializes the full tree back to the
same structured text format it was loaded from, preserving key order and
nesting" (Config.dump, src/virtex/config.py lines 201 to 209, writes the
tree as YAML); the model returns the value content that re-parsing the
dumped file yields (frozen flags are runtime state and are not
serialized). -/
def configDump (c : CfgV) : CfgV := stripFrozen c

/-- The Config wrapper object (class Config, src/virtex/config.py).  A
Python instance holds its yacs tree in the instance attribute _C; the
class defines __getattr__ (delegating reads to the tree) but no
__setattr__, so attribute writes on the wrapper follow the default Python
rule: they store into the instance dictionary, modelled here by attrs. -/
structure ConfigObj where
  attrs : CfgEntries
  tree : CfgV

/-- Attribute read on the wrapper: Python consults the instance dictionary
first and calls Config.__getattr__ (src/virtex/config.py lines 211 to 212)
only when that lookup fails. -/
def ConfigObj.getattr (c : ConfigObj) (k : String) : Option CfgV :=
  match lookupE c.attrs k with
  | some v => some v
  | none => getAttr c.tree k

/-- Attribute write on the wrapper: with no __setattr__ defined on Config,
the default object.__setattr__ stores the value in the instance
dictionary, never consulting the frozen tree and never failing. -/
def ConfigObj.setattr (c : ConfigObj) (k : String) (v : CfgV) : ConfigObj :=
  { c with attrs :=
      match lookupE c.attrs k with
      | some _ => replaceE c.attrs k v
      | none => appendE c.attrs k v }

/-- Constructing a Config object: run the pipeline and wrap the tree. -/
def configMakeObj (file : Option CfgV) (overrideList : List (String × CfgV)) :
    ConfigObj × Option CfgErr :=
  match configInit file overrideList with
  | (t, e) => ({ attrs := .nil, tree := t }, e)

/-- Is this value a nested node (as opposed to a leaf value)? -/
def isNode : CfgV → Bool
  | .vNode _ _ => true
  | _ => false

/-- Concatenation of two entry sequences. -/
def entriesConcat : CfgEntries → CfgEntries → CfgEntries
  | .nil, es2 => es2
  | .cons k v rest, es2 => .cons k v (entriesConcat rest es2)

/-- The YAML file of the C1 concrete scenario: OPTIM.BATCH_SIZE: 512. -/
def fileC1 : CfgV :=
  .vNode false (entriesOfList
    [("OPTIM", .vNode false (entriesOfList [("BATCH_SIZE", .vInt 512)]))])

mutual
/-- Two trees have the same shape: identical key sequences at every node
and type-compatible leaf values. -/
def sameShapeV : CfgV → CfgV → Bool
  | .vNode _ aes, .vNode _ bes => sameShapeE aes bes
  | a, b => typeMatch a b

def sameShapeE : CfgEntries → CfgEntries → Bool
  | .nil, .nil => true
  | .cons k1 v1 r1, .cons k2 v2 r2 => (k1 == k2) && sameShapeV v1 v2 && sameShapeE r1 r2
  | _, _ => false
end

mutual
/-- No node of the tree is frozen. -/
def noFrozenV : CfgV → Bool
  | .vNode f es => !f && noFrozenE es
  | _ => true

def noFrozenE : CfgEntries → Bool
  | .nil => true
  | .cons _ v r => noFrozenV v && noFrozenE r
end

/-- The key sequence of a node. -/
def keysE : CfgEntries → List String
  | .nil => []
  | .cons k _ r => k :: keysE r

mutual
/-- Every node of the tree has pairwise distinct keys. -/
def nodupV : CfgV → Bool
  | .vNode _ es => nodupE es
  | _ => true

def nodupE : CfgEntries → Bool
  | .nil => true
  | .cons k v r => !((keysE r).contains k) && nodupV v && nodupE r
end

/-- A node-valued override payload carrying a key absent from the schema
(the C5 counterexample). -/
def bogusC5 : CfgV := .vNode false (entriesOfList [("BOGUS", .vInt 1)])

end Virtex

namespace Viswsl

/-- The error raised when an index has no entry in an embedding table
(the spec calls it RangeError: "position table has no entry beyond this
bound"). -/
inductive EmbErr where
  | RangeError
  deriving DecidableEq

/-- One nn.Embedding row lookup: index out of table range fails with
RangeError. -/
def embLookup (table : List (List ℚ)) (idx : Nat) : Except EmbErr (List ℚ) :=
  match table[idx]? with
  | some row => .ok row
  | none => .error .RangeError

/-- Apply a fallible function to every list element, stopping at the first
error (an elementwise tensor lookup). -/
def mapE {α β : Type} (f : α → Except EmbErr β) : List α → Except EmbErr (List β)
  | [] => .ok []
  | a :: as =>
    match f a with
    | .error e => .error e
    | .ok b =>
      match mapE f as with
      | .error e => .error e
      | .ok bs => .ok (b :: bs)

/-- Pointwise combination of three lists (stops at the shortest). -/
def zipWith3 {α β γ δ : Type} (f : α → β → γ → δ) :
    List α → List β → List γ → List δ
  | a :: as, b :: bs, c :: cs => f a b c :: zipWith3 f as bs cs
  | _, _, _ => []

/-- The numerical-stability epsilon of the layer norm
(src/viswsl/modules/embedding.py line 25: eps=1e-8). -/
def lnEps : ℚ := 1 / 100000000

/-- Mean of a list of rationals. -/
def listMean (xs : List ℚ) : ℚ := xs.sum / (xs.length : ℚ)

/-- Biased variance of a list of rationals, as torch.nn.LayerNorm uses. -/
def listVar (xs : List ℚ) : ℚ :=
  ((xs.map (fun x => (x - listMean xs) * (x - listMean xs))).sum) / (xs.length : ℚ)

/-- torch.nn.LayerNorm with elementwise affine parameters
(src/viswsl/modules/embedding.py lines 24 to 26): per position, across the
hidden dimension, (x - mean) / sqrt(var + eps) * weight + bias.  The
floating-point square root is idealized by the rational Rat.sqrt; none of
the verified properties depend on the numeric value it returns. -/
def layerNorm (w b : List ℚ) (xs : List ℚ) : List ℚ :=
  zipWith3 (fun x g bi => (x - listMean xs) / Rat.sqrt (listVar xs + lnEps) * g + bi)
    xs w b

/-- The module state of WordAndPositionalEmbedding
(src/viswsl/modules/embedding.py lines 7 to 27): the two learned lookup
tables, the layer-norm parameters, the dropout probability and the padding
token id. -/
structure WordAndPositionalEmbedding where
  vocab_size : Nat
  hidden_size : Nat
  max_sequence_length : Nat
  dropout : ℚ
  padding_idx : Nat
  words : List (List ℚ)
  positions : List (List ℚ)
  ln_weight : List ℚ
  ln_bias : List ℚ

/-- Well-formed module state: the tables have the sizes the constructor
allocates (words: vocab_size x hidden_size, positions:
max_sequence_length x hidden_size, affine parameters of length
hidden_size). -/
def WordAndPositionalEmbedding.wf (m : WordAndPositionalEmbedding) : Bool :=
  (m.words.length == m.vocab_size) &&
  m.words.all (fun r => r.length == m.hidden_size) &&
  (m.positions.length == m.max_sequence_length) &&
  m.positions.all (fun r => r.length == m.hidden_size) &&
  (m.ln_weight.length == m.hidden_size) &&
  (m.ln_bias.length == m.hidden_size)

/-- make_position_indices (src/viswsl/modules/embedding.py lines 50 to
63): torch.arange(max_sequence_length) followed by
unsqueeze(0).expand(batch_size, max_sequence_length), that is, one row
[0, 1, ..., T-1] broadcast over the batch dimension.  The lru_cache
decorator memoizes a pure function of the two sizes (and the device) and
does not change the value. -/
def makePositionIndices (batch_size max_sequence_length : Nat) : List (List Nat) :=
  List.replicate batch_size (List.range max_sequence_length)

/-- List.map with the element index, starting at a given index. -/
def mapIdxFrom {α β : Type} (f : Nat → α → β) : Nat → List α → List β
  | _, [] => []
  | i, a :: as => f i a :: mapIdxFrom f (i + 1) as

/-- List.map with the element index. -/
def mapIdxQ {α β : Type} (f : Nat → α → β) (l : List α) : List β := mapIdxFrom f 0 l

/-- nn.Dropout (src/viswsl/modules/embedding.py line 27): in training
mode each element is zeroed independently with probability p and the
survivors are rescaled by 1/(1-p); the random draw is supplied from
outside as the keep function on element coordinates.  In eval mode the
layer is the identity. -/
def dropoutApply (training : Bool) (p : ℚ) (keep : Nat → Nat → Nat → Bool)
    (x : List (List (List ℚ))) : List (List (List ℚ)) :=
  if training then
    mapIdxQ (fun b row => mapIdxQ (fun i vec => mapIdxQ (fun h q =>
      if keep b i h then q / (1 - p) else 0) vec) row) x
  else x

/-- The second component of tokens.size() for a 2-D tensor: the common
row length. -/
def seqLen (tokens : List (List Nat)) : Nat :=
  match tokens with
  | [] => 0
  | r :: _ => r.length

/-- WordAndPositionalEmbedding.forward (src/viswsl/modules/embedding.py
lines 29 to 48): look up word and position embeddings, sum them, apply
layer norm, apply dropout, then zero out the positions whose input token
is the padding id (the mask multiply comes last).  Tensor index lookups
out of table range fail with RangeError. -/
def forward (m : WordAndPositionalEmbedding) (training : Bool)
    (keep : Nat → Nat → Nat → Bool) (tokens : List (List Nat)) :
    Except EmbErr (List (List (List ℚ))) :=
  let batch_size := tokens.length
  let position_indices := makePositionIndices batch_size (seqLen tokens)
  match mapE (fun row => mapE (embLookup m.words) row) tokens with
  | .error e => .error e
  | .ok word_embeddings =>
    match mapE (fun row => mapE (embLookup m.positions) row) position_indices with
    | .error e => .error e
    | .ok position_embeddings =>
      let summed := List.zipWith (List.zipWith (List.zipWith (fun a b => a + b)))
        word_embeddings position_embeddings
      let normed := summed.map (List.map (layerNorm m.ln_weight m.ln_bias))
      let dropped := dropoutApply training m.dropout keep normed
      let masked := List.zipWith (fun tokRow embRow =>
        List.zipWith (fun t vec => vec.map (fun q =>
          q * (if t = m.padding_idx then 0 else 1))) tokRow embRow) tokens dropped
      .ok masked

/-- The (b, i) vector of a forward result: the hidden vector at batch
element b and position i of a successful output, the empty vector
otherwise. -/
def outAt (r : Except EmbErr (List (List (List ℚ)))) (b i : Nat) : List ℚ :=
  match r with
  | .error _ => []
  | .ok out => ((out[b]?.getD [])[i]?.getD [])

/-- A tiny concrete module state used to witness the padding invariant. -/
def embC3 : WordAndPositionalEmbedding :=
  { vocab_size := 2, hidden_size := 2, max_sequence_length := 2,
    dropout := 0, padding_idx := 0,
    words := [[0, 0], [1, 1]], positions := [[0, 0], [2, 2]],
    ln_weight := [1, 1], ln_bias := [5, 7] }

/-- A tiny concrete module state used to witness the shape contract. -/
def embC4 : WordAndPositionalEmbedding :=
  { vocab_size := 3, hidden_size := 2, max_sequence_length := 2,
    dropout := 0, padding_idx := 0,
    words := [[0, 0], [1, 1], [2, 2]], positions := [[0, 0], [2, 2]],
    ln_weight := [1, 1], ln_bias := [5, 7] }

end Viswsl

namespace Virtex

theorem lookupE_replaceE_self : ∀ (es : CfgEntries) (k : String) (v w : CfgV),
    lookupE es k = some w → lookupE (replaceE es k v) k = some v
  | .nil, k, v, w, h => by simp [lookupE] at h
  | .cons k0 v0 rest, k, v, w, h => by
      by_cases hk : k0 = k
      · simp [lookupE, replaceE, hk]
      · simp [lookupE, replaceE, hk] at h ⊢
        exact lookupE_replaceE_self rest k v w h

theorem getPath_setAtPath : ∀ (p : List String) (c v c2 : CfgV),
    setAtPath c p v = (c2, none) → getPath c2 p = some v
  | [], c, v, c2, h => by simp [setAtPath] at h
  | [k], c, v, c2, h => by
      cases c with
      | vNode f es =>
        rcases hlk : lookupE es k with _ | old <;> simp [setAtPath, hlk] at h
        by_cases ht : typeMatch v old
        · simp [ht] at h
          subst h
          simp [getPath, getAttr]
          rw [lookupE_replaceE_self es k v old hlk]
        · simp [ht] at h
      | vInt n => simp [setAtPath] at h
      | vFloat q => simp [setAtPath] at h
      | vBool b => simp [setAtPath] at h
      | vStr s => simp [setAtPath] at h
      | vStrList xs => simp [setAtPath] at h
      | vIntList xs => simp [setAtPath] at h
  | k :: k2 :: rest, c, v, c2, h => by
      cases c with
      | vNode f es =>
        rcases hlk : lookupE es k with _ | sub <;> simp [setAtPath, hlk] at h
        rcases hsp : setAtPath sub (k2 :: rest) v with ⟨sub2, e⟩
        cases e with
        | some err => simp [hsp] at h
        | none =>
          simp [hsp] at h
          subst h
          simp [getPath, getAttr]
          rw [lookupE_replaceE_self es k sub2 sub hlk]
          exact getPath_setAtPath (k2 :: rest) sub v sub2 hsp
      | vInt n => simp [setAtPath] at h
      | vFloat q => simp [setAtPath] at h
      | vBool b => simp [setAtPath] at h
      | vStr s => simp [setAtPath] at h
      | vStrList xs => simp [setAtPath] at h
      | vIntList xs => simp [setAtPath] at h

theorem setAtPath_of_getPath_none : ∀ (p : List String) (c v : CfgV),
    getPath c p = none → setAtPath c p v = (c, some .unknownKey)
  | [], c, v, h => by simp [getPath] at h
  | [k], c, v, h => by
      cases c with
      | vNode f es =>
        rcases hlk : lookupE es k with _ | w
        · simp [setAtPath, hlk]
        · simp [getPath, getAttr, hlk] at h
      | vInt n => simp [setAtPath]
      | vFloat q => simp [setAtPath]
      | vBool b => simp [setAtPath]
      | vStr s => simp [setAtPath]
      | vStrList xs => simp [setAtPath]
      | vIntList xs => simp [setAtPath]
  | k :: k2 :: rest, c, v, h => by
      cases c with
      | vNode f es =>
        rcases hlk : lookupE es k with _ | sub
        · simp [setAtPath, hlk]
        · simp [getPath, getAttr, hlk] at h
          have hrec := setAtPath_of_getPath_none (k2 :: rest) sub v h
          simp [setAtPath, hlk, hrec]
      | vInt n => simp [setAtPath]
      | vFloat q => simp [setAtPath]
      | vBool b => simp [setAtPath]
      | vStr s => simp [setAtPath]
      | vStrList xs => simp [setAtPath]
      | vIntList xs => simp [setAtPath]

theorem mergeFromList_append_ok : ∀ (l1 l2 : List (String × CfgV)) (c c2 : CfgV),
    mergeFromList c (l1 ++ l2) = (c2, none) →
    ∃ cm, mergeFromList c l1 = (cm, none) ∧ mergeFromList cm l2 = (c2, none)
  | [], l2, c, c2, h => ⟨c, rfl, h⟩
  | (k, v) :: l1, l2, c, c2, h => by
      rcases hsp : setAtPath c (splitDots k) v with ⟨c1, e⟩
      cases e with
      | some err => simp [mergeFromList, hsp] at h
      | none =>
        simp [mergeFromList, hsp] at h ⊢
        exact mergeFromList_append_ok l1 l2 c1 c2 h

theorem mergeFromList_unknown : ∀ (ps : List (String × CfgV)) (c cm : CfgV)
    (k : String) (v : CfgV) (rest : List (String × CfgV)),
    mergeFromList c ps = (cm, none) →
    getPath cm (splitDots k) = none →
    mergeFromList c (ps ++ (k, v) :: rest) = (cm, some .unknownKey)
  | [], c, cm, k, v, rest, hok, habs => by
      simp [mergeFromList] at hok
      subst hok
      simp [mergeFromList, setAtPath_of_getPath_none (splitDots k) c v habs]
  | (k0, v0) :: ps, c, cm, k, v, rest, hok, habs => by
      rcases hsp : setAtPath c (splitDots k0) v0 with ⟨c1, e⟩
      cases e with
      | some err => simp [mergeFromList, hsp] at hok
      | none =>
        simp [mergeFromList, hsp] at hok ⊢
        exact mergeFromList_unknown ps c1 cm k v rest hok habs

theorem mergeEntries_append_unknown : ∀ (aes bes bm : CfgEntries)
    (k : String) (v : CfgV) (rest : CfgEntries),
    mergeEntries aes bes = (bm, none) → lookupE bm k = none →
    mergeEntries (entriesConcat aes (.cons k v rest)) bes = (bm, some .unknownKey)
  | .nil, bes, bm, k, v, rest, hok, habs => by
      simp [mergeEntries] at hok
      subst hok
      simp [entriesConcat, mergeEntries, habs]
  | .cons k0 v0 aesrest, bes, bm, k, v, rest, hok, habs => by
      rcases hlk : lookupE bes k0 with _ | bv
      · simp [mergeEntries, hlk] at hok
      · by_cases ht : typeMatch v0 bv
        · simp only [entriesConcat]
          cases v0 <;> cases bv <;> try simp [typeMatch] at ht
          all_goals try (
            simp only [mergeEntries, hlk, ht, if_true] at hok ⊢
            exact mergeEntries_append_unknown aesrest _ bm k v rest hok habs)
          rename_i aes2 bf2 bes2
          rcases hsub : mergeEntries aes2 bes2 with ⟨sub, esub⟩
          cases esub with
          | some err => simp [mergeEntries, hlk, typeMatch, hsub] at hok
          | none =>
            simp only [mergeEntries, hlk, typeMatch, if_true, hsub] at hok ⊢
            exact mergeEntries_append_unknown aesrest _ bm k v rest hok habs
        · simp [mergeFromList, mergeEntries, hlk, ht] at hok

theorem lookupE_freezeEntries : ∀ (es : CfgEntries) (k : String),
    lookupE (freezeEntries es) k = (lookupE es k).map freeze
  | .nil, _ => rfl
  | .cons k0 v0 rest, k => by
      by_cases hk : k0 = k <;>
        simp [freezeEntries, lookupE, hk, lookupE_freezeEntries rest k]

theorem getAttr_freeze (c : CfgV) (k : String) :
    getAttr (freeze c) k = (getAttr c k).map freeze := by
  cases c <;> simp [freeze, getAttr, lookupE_freezeEntries]

theorem getPath_freeze : ∀ (p : List String) (c : CfgV),
    getPath (freeze c) p = (getPath c p).map freeze
  | [], c => by simp [getPath]
  | k :: rest, c => by
      simp [getPath, getAttr_freeze]
      rcases hlk : getAttr c k with _ | w
      · simp
      · simp [getPath_freeze rest w]

theorem freeze_of_not_node (v : CfgV) (h : isNode v = false) : freeze v = v := by
  cases v <;> simp_all [isNode, freeze]

theorem keysE_of_sameShapeE : ∀ (aes bes : CfgEntries),
    sameShapeE aes bes = true → keysE aes = keysE bes
  | .nil, .nil, _ => rfl
  | .nil, .cons _ _ _, h => by simp [sameShapeE] at h
  | .cons _ _ _, .nil, h => by simp [sameShapeE] at h
  | .cons k1 v1 r1, .cons k2 v2 r2, h => by
      simp [sameShapeE] at h
      simp [keysE, h.1.1, keysE_of_sameShapeE r1 r2 h.2]

mutual
theorem nodupV_of_sameShapeV : ∀ (a b : CfgV),
    sameShapeV a b = true → nodupV b = true → nodupV a = true
  | .vNode af aes, b, hs, hn => by
      cases b with
      | vNode bf bes =>
        simp [sameShapeV] at hs
        simp [nodupV] at hn ⊢
        exact nodupE_of_sameShapeE aes bes hs hn
      | vInt n => simp [sameShapeV, typeMatch] at hs
      | vFloat q => simp [sameShapeV, typeMatch] at hs
      | vBool b0 => simp [sameShapeV, typeMatch] at hs
      | vStr s => simp [sameShapeV, typeMatch] at hs
      | vStrList xs => simp [sameShapeV, typeMatch] at hs
      | vIntList xs => simp [sameShapeV, typeMatch] at hs
  | .vInt _, _, _, _ => rfl
  | .vFloat _, _, _, _ => rfl
  | .vBool _, _, _, _ => rfl
  | .vStr _, _, _, _ => rfl
  | .vStrList _, _, _, _ => rfl
  | .vIntList _, _, _, _ => rfl

theorem nodupE_of_sameShapeE : ∀ (aes bes : CfgEntries),
    sameShapeE aes bes = true → nodupE bes = true → nodupE aes = true
  | .nil, _, _, _ => rfl
  | .cons k1 v1 r1, .nil, hs, _ => by simp [sameShapeE] at hs
  | .cons k1 v1 r1, .cons k2 v2 r2, hs, hn => by
      simp only [sameShapeE, Bool.and_eq_true, beq_iff_eq] at hs
      obtain ⟨⟨hk, hv⟩, hr⟩ := hs
      subst hk
      simp only [nodupE, Bool.and_eq_true, Bool.not_eq_true'] at hn ⊢
      obtain ⟨⟨hc, hnv⟩, hne⟩ := hn
      refine ⟨⟨?_, nodupV_of_sameShapeV v1 v2 hv hnv⟩, nodupE_of_sameShapeE r1 r2 hr hne⟩
      rw [keysE_of_sameShapeE r1 r2 hr]
      exact hc
end

theorem lookupE_concat_left_none : ∀ (done rest : CfgEntries) (k : String),
    lookupE done k = none →
    lookupE (entriesConcat done rest) k = lookupE rest k
  | .nil, rest, k, _ => rfl
  | .cons k0 v0 d, rest, k, h => by
      by_cases hk : k0 = k
      · simp [lookupE, hk] at h
      · simp [lookupE, hk] at h
        simp [entriesConcat, lookupE, hk]
        exact lookupE_concat_left_none d rest k h

theorem replaceE_concat_skip : ∀ (done rest : CfgEntries) (k : String) (v : CfgV),
    lookupE done k = none →
    replaceE (entriesConcat done rest) k v = entriesConcat done (replaceE rest k v)
  | .nil, rest, k, v, _ => rfl
  | .cons k0 v0 d, rest, k, v, h => by
      by_cases hk : k0 = k
      · simp [lookupE, hk] at h
      · simp [lookupE, hk] at h
        simp [entriesConcat, replaceE, hk]
        exact replaceE_concat_skip d rest k v h

theorem concat_appendE : ∀ (done : CfgEntries) (k : String) (v : CfgV) (rest : CfgEntries),
    entriesConcat (appendE done k v) rest = entriesConcat done (.cons k v rest)
  | .nil, k, v, rest => rfl
  | .cons k0 v0 d, k, v, rest => by
      simp [appendE, entriesConcat]
      exact concat_appendE d k v rest

theorem lookupE_appendE_none : ∀ (done : CfgEntries) (k : String) (v : CfgV) (k2 : String),
    lookupE done k2 = none → k ≠ k2 → lookupE (appendE done k v) k2 = none
  | .nil, k, v, k2, _, hne => by simp [appendE, lookupE, hne]
  | .cons k0 v0 d, k, v, k2, h, hne => by
      by_cases hk : k0 = k2
      · simp [lookupE, hk] at h
      · simp [lookupE, hk] at h
        simp [appendE, lookupE, hk]
        exact lookupE_appendE_none d k v k2 h hne

theorem mergeEntries_sameShape : ∀ (aes done bes : CfgEntries),
    sameShapeE aes bes = true → nodupE aes = true →
    noFrozenE aes = true → noFrozenE bes = true →
    (∀ k2, (keysE aes).contains k2 = true → lookupE done k2 = none) →
    mergeEntries aes (entriesConcat done bes) = (entriesConcat done aes, none)
  | .nil, done, bes, hs, _, _, _, _ => by
      cases bes with
      | nil => simp [mergeEntries]
      | cons k2 v2 r2 => simp [sameShapeE] at hs
  | .cons k1 v1 r1, done, bes, hs, hnd, hfa, hfb, hdisj => by
      cases bes with
      | nil => simp [sameShapeE] at hs
      | cons k2 v2 r2 =>
        simp only [sameShapeE, Bool.and_eq_true, beq_iff_eq] at hs
        obtain ⟨⟨hk, hv⟩, hr⟩ := hs
        subst hk
        simp only [nodupE, Bool.and_eq_true, Bool.not_eq_true'] at hnd
        obtain ⟨⟨hc1, hnv1⟩, hnd1⟩ := hnd
        simp only [noFrozenE, Bool.and_eq_true] at hfa hfb
        obtain ⟨hfv1, hfr1⟩ := hfa
        obtain ⟨hfv2, hfr2⟩ := hfb
        have hdk : lookupE done k1 = none := hdisj k1 (by simp [keysE])
        have hlk : lookupE (entriesConcat done (.cons k1 v2 r2)) k1 = some v2 := by
          rw [lookupE_concat_left_none done _ k1 hdk]
          simp [lookupE]
        have hdisj1 : ∀ k2, (keysE r1).contains k2 = true →
            lookupE (appendE done k1 v1) k2 = none := by
          intro k2 hmem
          have hd2 : lookupE done k2 = none := by
            refine hdisj k2 ?_
            simp [keysE]
            exact Or.inr (by simpa using hmem)
          have hne : k1 ≠ k2 := by
            intro hEq
            subst hEq
            rw [hmem] at hc1
            exact Bool.true_eq_false.mp hc1
          exact lookupE_appendE_none done k1 v1 k2 hd2 hne
        have hrepl : replaceE (entriesConcat done (.cons k1 v2 r2)) k1 v1
            = entriesConcat (appendE done k1 v1) r2 := by
          rw [replaceE_concat_skip done _ k1 v1 hdk]
          simp [replaceE, concat_appendE]
        cases v1 <;> cases v2 <;> try simp [sameShapeV, typeMatch] at hv
        all_goals try (
          simp only [mergeEntries, hlk, typeMatch, if_true, hrepl]
          rw [mergeEntries_sameShape r1 (appendE done k1 _) r2 hr hnd1 hfr1 hfr2 hdisj1,
            concat_appendE])
        rename_i f1 es1 f2 es2
        simp only [noFrozenV, Bool.and_eq_true, Bool.not_eq_true'] at hfv1 hfv2
        obtain ⟨hf1, hfe1⟩ := hfv1
        obtain ⟨hf2, hfe2⟩ := hfv2
        subst hf1
        subst hf2
        have hsub := mergeEntries_sameShape es1 .nil es2 hv
          (by simpa [nodupV] using hnv1) hfe1 hfe2 (fun k3 _ => rfl)
        simp only [entriesConcat] at hsub
        simp only [mergeEntries, hlk, typeMatch, if_true, hsub, hrepl]
        rw [mergeEntries_sameShape r1 (appendE done k1 (CfgV.vNode false es1)) r2 hr hnd1
          hfr1 hfr2 hdisj1, concat_appendE]

mutual
theorem noFrozenV_stripFrozen : ∀ (c : CfgV), noFrozenV (stripFrozen c) = true
  | .vNode f es => by simp [stripFrozen, noFrozenV, noFrozenE_stripEntries es]
  | .vInt n => rfl
  | .vFloat q => rfl
  | .vBool b => rfl
  | .vStr s => rfl
  | .vStrList xs => rfl
  | .vIntList xs => rfl

theorem noFrozenE_stripEntries : ∀ (es : CfgEntries), noFrozenE (stripEntries es) = true
  | .nil => rfl
  | .cons k v rest => by
      simp [stripEntries, noFrozenE, noFrozenV_stripFrozen v, noFrozenE_stripEntries rest]
end

end Virtex

namespace Virtex

/-- C10: Config() with no YAML file and an empty override list succeeds
without any file input, and the result is exactly the frozen
schema-default tree, with RANDOM_SEED 0, OPTIM.BATCH_SIZE 256 and
MODEL.NAME "bicaptioning". -/
theorem config_default_construction :
    configInit none [] = (freeze defaultConfig, none) ∧
    getPath (configInit none []).1 ["RANDOM_SEED"] = some (.vInt 0) ∧
    getPath (configInit none []).1 ["OPTIM", "BATCH_SIZE"] = some (.vInt 256) ∧
    getPath (configInit none []).1 ["MODEL", "NAME"] = some (.vStr "bicaptioning") :=
  ⟨rfl, rfl, rfl, rfl⟩

/-- C9, counterexample: construction does not validate the WORD_MASKING
probabilities, so a Config constructed with the override
DATA.WORD_MASKING.MASK_PROPORTION = 1.5 succeeds and carries a value that
violates MASK_PROPORTION < 1, refuting the claim that every constructed
Config satisfies the constraint. -/
theorem word_masking_constraint_violable :
    (configInit none [("DATA.WORD_MASKING.MASK_PROPORTION", CfgV.vFloat 1.5)]).2 = none ∧
    getPath (configInit none [("DATA.WORD_MASKING.MASK_PROPORTION", CfgV.vFloat 1.5)]).1
      ["DATA", "WORD_MASKING", "MASK_PROPORTION"] = some (.vFloat 1.5) ∧
    ¬ ((1.5 : ℚ) < 1) :=
  ⟨rfl, rfl, by norm_num⟩

/-- C9, amended: in the default-constructed Config the three WORD_MASKING
probabilities (0.15, 0.85, 0.10) do satisfy 0 ≤ MASK_PROPORTION < 1 and
MASK_PROBABILITY + REPLACE_PROBABILITY ≤ 1; the constraint holds for the
schema defaults but is not enforced against overrides. -/
theorem word_masking_defaults_satisfy_constraint :
    getPath (configInit none []).1 ["DATA", "WORD_MASKING", "MASK_PROPORTION"]
      = some (.vFloat 0.15) ∧
    getPath (configInit none []).1 ["DATA", "WORD_MASKING", "MASK_PROBABILITY"]
      = some (.vFloat 0.85) ∧
    getPath (configInit none []).1 ["DATA", "WORD_MASKING", "REPLACE_PROBABILITY"]
      = some (.vFloat 0.10) ∧
    ((0 : ℚ) ≤ 0.15 ∧ (0.15 : ℚ) < 1) ∧ (0.85 : ℚ) + 0.10 ≤ 1 :=
  ⟨rfl, rfl, rfl, by norm_num, by norm_num⟩

/-- C2, divergence at the failing input: class Config defines __getattr__
but not __setattr__, so a top-level attribute write on a constructed
Config object (cfg.RANDOM_SEED = 123) silently stores an instance
attribute instead of raising ImmutabilityError, and a subsequent read
returns 123 instead of the frozen value 0.  (ConfigObj.setattr is total:
the default object.__setattr__ has no failure path.)  Writes that reach
the frozen tree itself, such as cfg.OPTIM.BATCH_SIZE = 5, are rejected
with ImmutabilityError and leave the tree unchanged, which is the
behaviour the claim expects for every key. -/
theorem config_wrapper_write_not_rejected :
    ((configMakeObj none []).1.setattr "RANDOM_SEED" (CfgV.vInt 123)).getattr "RANDOM_SEED"
      = some (.vInt 123) ∧
    (configMakeObj none []).1.getattr "RANDOM_SEED" = some (.vInt 0) ∧
    (writeAtPath (configInit none []).1 ["OPTIM", "BATCH_SIZE"] (CfgV.vInt 5)).2
      = some .immutability ∧
    (writeAtPath (configInit none []).1 ["OPTIM", "BATCH_SIZE"] (CfgV.vInt 5)).1
      = (configInit none []).1 :=
  ⟨rfl, rfl, rfl, rfl⟩

/-- C1: list overrides beat file overrides.  For every YAML file tree,
every earlier override-list prefix and every final override pair (k, v)
with a leaf value, if construction succeeds then the frozen tree reads v
at the dot path k: the last list entry wins over whatever the file (or
any earlier stage) set there. -/
theorem override_list_precedence (file : Option CfgV) (ps : List (String × CfgV))
    (k : String) (v : CfgV) (c : CfgV)
    (hleaf : isNode v = false)
    (hinit : configInit file (ps ++ [(k, v)]) = (c, none)) :
    getPath c (splitDots k) = some v := by
  rcases hfs : fileStage file with ⟨c1, e1⟩
  cases e1 with
  | some err => simp [configInit, hfs] at hinit
  | none =>
    rcases hml : mergeFromList c1 (ps ++ [(k, v)]) with ⟨c2, e2⟩
    cases e2 with
    | some err => simp [configInit, hfs, hml] at hinit
    | none =>
      simp [configInit, hfs, hml, addDerivedParams] at hinit
      rcases mergeFromList_append_ok ps [(k, v)] c1 c2 hml with ⟨cm, hok, hlast⟩
      rcases hsp : setAtPath cm (splitDots k) v with ⟨c3, e3⟩
      cases e3 with
      | some err => simp [mergeFromList, hsp] at hlast
      | none =>
        simp [mergeFromList, hsp] at hlast
        subst hlast
        have hget := getPath_setAtPath (splitDots k) cm v c3 hsp
        subst hinit
        simp [getPath_freeze, hget, freeze_of_not_node v hleaf]

/-- Witness for C1, the concrete scenario of the spec: schema default 256,
file value 512, list override 1024; the frozen config reads 1024. -/
theorem override_list_precedence_witness :
    getPath (configInit (some fileC1) [("OPTIM.BATCH_SIZE", CfgV.vInt 1024)]).1
      ["OPTIM", "BATCH_SIZE"] = some (.vInt 1024) :=
  override_list_precedence (some fileC1) [] "OPTIM.BATCH_SIZE" (CfgV.vInt 1024)
    (configInit (some fileC1) [("OPTIM.BATCH_SIZE", CfgV.vInt 1024)]).1
    (by rfl) (by rfl)

/-- C6: an override that references a dot path absent from the schema is
rejected with UnknownKeyError, construction fails immediately, the failing
key is not applied at all, and the keys merged earlier in the same merge
remain applied.  First conjunct: a list override (k, v) after a
successfully merged prefix ps aborts construction with exactly the tree cm
produced by ps.  Second conjunct: a config file whose top-level entries
are a cleanly merging prefix faes followed by an unknown key fk aborts
construction with exactly the tree obtained from the prefix, and the
override list is never reached. -/
theorem unknown_key_rejection (file : Option CfgV) (c1 cm : CfgV)
    (ps rest : List (String × CfgV)) (k : String) (v : CfgV)
    (faes fbm : CfgEntries) (fk : String) (fv : CfgV) (frest : CfgEntries)
    (ov : List (String × CfgV)) :
    (fileStage file = (c1, none) → mergeFromList c1 ps = (cm, none) →
      getPath cm (splitDots k) = none →
      configInit file (ps ++ (k, v) :: rest) = (cm, some .unknownKey)) ∧
    (mergeEntries faes defaultEntries = (fbm, none) → lookupE fbm fk = none →
      configInit (some (.vNode false (entriesConcat faes (.cons fk fv frest)))) ov
        = (.vNode false fbm, some .unknownKey)) := by
  constructor
  · intro hfs hps habs
    have h := mergeFromList_unknown ps c1 cm k v rest hps habs
    simp [configInit, hfs, h]
  · intro hm habs
    have h := mergeEntries_append_unknown faes defaultEntries fbm fk fv frest hm habs
    simp [configInit, fileStage, mergeFromFile, defaultConfig, h]

/-- Witness for C6.  List case: after the earlier pair OPTIM.BATCH_SIZE =
512 is applied, the pair DATA.NONEXISTENT_FIELD = 1 aborts construction
with UnknownKeyError, leaving exactly the tree with 512 applied.  File
case: a file setting RANDOM_SEED = 7 and then an unknown top-level key
NONEXISTENT aborts construction with UnknownKeyError, leaving exactly the
defaults with RANDOM_SEED = 7, and the override list is never merged. -/
theorem unknown_key_rejection_witness :
    configInit none
        [("OPTIM.BATCH_SIZE", CfgV.vInt 512), ("DATA.NONEXISTENT_FIELD", CfgV.vInt 1)]
      = ((mergeFromList defaultConfig [("OPTIM.BATCH_SIZE", CfgV.vInt 512)]).1,
         some .unknownKey) ∧
    configInit (some (.vNode false (entriesConcat
        (entriesOfList [("RANDOM_SEED", CfgV.vInt 7)])
        (.cons "NONEXISTENT" (CfgV.vInt 1) .nil)))) [("OPTIM.BATCH_SIZE", CfgV.vInt 4)]
      = (.vNode false
          (mergeEntries (entriesOfList [("RANDOM_SEED", CfgV.vInt 7)]) defaultEntries).1,
         some .unknownKey) := by
  constructor
  · exact (unknown_key_rejection none defaultConfig
      (mergeFromList defaultConfig [("OPTIM.BATCH_SIZE", CfgV.vInt 512)]).1
      [("OPTIM.BATCH_SIZE", CfgV.vInt 512)] [] "DATA.NONEXISTENT_FIELD" (CfgV.vInt 1)
      .nil .nil "X" (CfgV.vInt 0) .nil []).1 rfl (by rfl) (by rfl)
  · exact (unknown_key_rejection none defaultConfig defaultConfig [] [] "X" (CfgV.vInt 0)
      (entriesOfList [("RANDOM_SEED", CfgV.vInt 7)])
      (mergeEntries (entriesOfList [("RANDOM_SEED", CfgV.vInt 7)]) defaultEntries).1
      "NONEXISTENT" (CfgV.vInt 1) .nil [("OPTIM.BATCH_SIZE", CfgV.vInt 4)]).2
      (by rfl) (by rfl)

/-- C5, amended: for every configuration tree whose value content has the
same shape as the schema (identical nested key structure with
type-compatible leaves; this holds for every construction whose overrides
assign leaf values), merging the dumped tree into a freshly constructed
default tree succeeds and reproduces the exact value content of every
key. -/
theorem dump_round_trip_preserves_values (c : CfgV)
    (hshape : sameShapeV (stripFrozen c) defaultConfig = true) :
    mergeFromFile defaultConfig (configDump c) = (stripFrozen c, none) := by
  cases c with
  | vNode f es =>
    have hsE : sameShapeE (stripEntries es) defaultEntries = true := by
      simpa [stripFrozen, sameShapeV, defaultConfig] using hshape
    have hnd : nodupE (stripEntries es) = true :=
      nodupE_of_sameShapeE _ _ hsE (by rfl)
    have hfa : noFrozenE (stripEntries es) = true := noFrozenE_stripEntries es
    have h := mergeEntries_sameShape (stripEntries es) .nil defaultEntries hsE hnd hfa
      (by rfl) (fun k2 _ => rfl)
    simp only [entriesConcat] at h
    simp [configDump, stripFrozen, mergeFromFile, defaultConfig, h]
  | vInt n => simp [stripFrozen, sameShapeV, typeMatch, defaultConfig] at hshape
  | vFloat q => simp [stripFrozen, sameShapeV, typeMatch, defaultConfig] at hshape
  | vBool b => simp [stripFrozen, sameShapeV, typeMatch, defaultConfig] at hshape
  | vStr s => simp [stripFrozen, sameShapeV, typeMatch, defaultConfig] at hshape
  | vStrList xs => simp [stripFrozen, sameShapeV, typeMatch, defaultConfig] at hshape
  | vIntList xs => simp [stripFrozen, sameShapeV, typeMatch, defaultConfig] at hshape

/-- Witness for C5: a config constructed with the non-default override
MODEL.NAME = "captioning" dumps and merges back into fresh defaults to
exactly its own value content. -/
theorem dump_round_trip_witness :
    mergeFromFile defaultConfig
        (configDump (configInit none [("MODEL.NAME", CfgV.vStr "captioning")]).1)
      = (stripFrozen (configInit none [("MODEL.NAME", CfgV.vStr "captioning")]).1, none) :=
  dump_round_trip_preserves_values
    (configInit none [("MODEL.NAME", CfgV.vStr "captioning")]).1 (by rfl)

/-- C5, counterexample: the round trip fails for a successfully
constructed Config whose override list replaced the whole OPTIM subtree
by a node carrying a key absent from the schema (both are nodes, so the
type check passes).  Construction succeeds and the frozen config reads
OPTIM.BOGUS = 1, but merging its dump into a fresh default tree fails
with UnknownKeyError instead of reproducing the node. -/
theorem dump_round_trip_fails_for_node_override :
    (configInit none [("OPTIM", bogusC5)]).2 = none ∧
    getPath (configInit none [("OPTIM", bogusC5)]).1 ["OPTIM", "BOGUS"]
      = some (.vInt 1) ∧
    (mergeFromFile defaultConfig (configDump (configInit none [("OPTIM", bogusC5)]).1)).2
      = some .unknownKey :=
  ⟨rfl, rfl, rfl⟩

end Virtex

namespace Viswsl

/-- In eval mode the dropout layer is the identity. -/
theorem dropoutApply_eval (p : ℚ) (keep : Nat → Nat → Nat → Bool)
    (x : List (List (List ℚ))) : dropoutApply false p keep x = x := rfl

/-- C7: with dropout disabled (eval mode), the forward output does not
depend on the random draw at all: two calls on the same input and the
same module state give the same output, whatever the two dropout draws
would have been.  The model of forward is a pure function of the module
state and the input, so no hidden state can persist between calls. -/
theorem embedding_eval_determinism (m : WordAndPositionalEmbedding)
    (keep1 keep2 : Nat → Nat → Nat → Bool) (tokens : List (List Nat)) :
    forward m false keep1 tokens = forward m false keep2 tokens := by
  simp [forward, dropoutApply_eval]

/-- C8: the position-index array used by forward has shape
[batch_size, T] and every row is [0, 1, ..., T-1], identical across the
batch dimension. -/
theorem position_indices_broadcast (B T : Nat) (hB : 1 ≤ B) :
    (makePositionIndices B T).length = B ∧
    ∀ row ∈ makePositionIndices B T, row = List.range T := by
  constructor
  · simp [makePositionIndices]
  · intro row hrow
    exact List.eq_of_mem_replicate hrow

/-- Witness for C8 at batch size 2 and sequence length 3. -/
theorem position_indices_broadcast_witness :
    (makePositionIndices 2 3).length = 2 ∧
    ∀ row ∈ makePositionIndices 2 3, row = List.range 3 :=
  position_indices_broadcast 2 3 (by decide)

end Viswsl

namespace Viswsl

theorem mapE_length {α β : Type} (f : α → Except EmbErr β) :
    ∀ (l : List α) (l2 : List β), mapE f l = .ok l2 → l2.length = l.length
  | [], l2, h => by simp [mapE] at h; simp [← h]
  | a :: as, l2, h => by
      rcases hfa : f a with _ | b
      · simp [mapE, hfa] at h
      · rcases hrest : mapE f as with _ | bs
        · simp [mapE, hfa, hrest] at h
        · simp [mapE, hfa, hrest] at h
          subst h
          simp [mapE_length f as bs hrest]

theorem mapE_getElem? {α β : Type} (f : α → Except EmbErr β) :
    ∀ (l : List α) (l2 : List β) (i : Nat) (a : α), mapE f l = .ok l2 →
      l[i]? = some a → ∃ b, f a = .ok b ∧ l2[i]? = some b
  | [], l2, i, a, _, hga => by simp at hga
  | a0 :: as, l2, i, a, h, hga => by
      rcases hfa : f a0 with _ | b0
      · simp [mapE, hfa] at h
      · rcases hrest : mapE f as with _ | bs
        · simp [mapE, hfa, hrest] at h
        · simp [mapE, hfa, hrest] at h
          subst h
          cases i with
          | zero =>
            simp at hga
            subst hga
            exact ⟨b0, hfa, by simp⟩
          | succ i2 =>
            simp at hga ⊢
            exact mapE_getElem? f as bs i2 a hrest hga

theorem mapE_ok_of_all {α β : Type} (f : α → Except EmbErr β) :
    ∀ (l : List α), (∀ a ∈ l, ∃ b, f a = .ok b) → ∃ l2, mapE f l = .ok l2
  | [], _ => ⟨[], rfl⟩
  | a :: as, h => by
      rcases h a (by simp) with ⟨b, hb⟩
      rcases mapE_ok_of_all f as (fun a2 ha2 => h a2 (by simp [ha2])) with ⟨bs, hbs⟩
      exact ⟨b :: bs, by simp [mapE, hb, hbs]⟩

theorem mapE_error_of_mem {α β : Type} (f : α → Except EmbErr β) (e : EmbErr) :
    ∀ (l : List α), (∀ a ∈ l, (∃ b, f a = .ok b) ∨ f a = .error e) →
      (∃ a ∈ l, f a = .error e) → mapE f l = .error e
  | [], _, hex => by simp at hex
  | a :: as, hall, hex => by
      rcases hfa : f a with e2 | b
      · rcases hall a (by simp) with ⟨b, hb⟩ | hb
        · rw [hfa] at hb; cases hb
        · rw [hfa] at hb
          simp [mapE, hfa]
      · have hex2 : ∃ a2 ∈ as, f a2 = .error e := by
          rcases hex with ⟨a2, ha2, he2⟩
          rcases List.mem_cons.mp ha2 with ha2 | ha2
          · subst ha2; rw [hfa] at he2; cases he2
          · exact ⟨a2, ha2, he2⟩
        have hrest := mapE_error_of_mem f e as
          (fun a2 ha2 => hall a2 (by simp [ha2])) hex2
        simp [mapE, hfa, hrest]

theorem zipWith_getElem?_some {α β γ : Type} (f : α → β → γ) :
    ∀ (l1 : List α) (l2 : List β) (i : Nat) (a : α) (b : β),
      l1[i]? = some a → l2[i]? = some b →
      (List.zipWith f l1 l2)[i]? = some (f a b)
  | [], _, i, a, b, h1, _ => by simp at h1
  | _ :: _, [], i, a, b, _, h2 => by simp at h2
  | a0 :: as, b0 :: bs, 0, a, b, h1, h2 => by
      simp at h1 h2
      subst h1; subst h2
      simp [List.zipWith]
  | a0 :: as, b0 :: bs, i + 1, a, b, h1, h2 => by
      simp at h1 h2 ⊢
      exact zipWith_getElem?_some f as bs i a b h1 h2

theorem mapIdxFrom_length {α β : Type} (f : Nat → α → β) :
    ∀ (j : Nat) (l : List α), (mapIdxFrom f j l).length = l.length
  | _, [] => rfl
  | j, a :: as => by simp [mapIdxFrom, mapIdxFrom_length f (j + 1) as]

theorem mapIdxFrom_getElem? {α β : Type} (f : Nat → α → β) :
    ∀ (j : Nat) (l : List α) (i : Nat) (a : α), l[i]? = some a →
      (mapIdxFrom f j l)[i]? = some (f (j + i) a)
  | j, [], i, a, h => by simp at h
  | j, a0 :: as, 0, a, h => by
      simp at h
      subst h
      simp [mapIdxFrom]
  | j, a0 :: as, i + 1, a, h => by
      simp at h
      have h2 := mapIdxFrom_getElem? f (j + 1) as i a h
      simpa [mapIdxFrom, Nat.add_assoc, Nat.add_comm 1 i] using h2

theorem zipWith3_length {α β γ δ : Type} (f : α → β → γ → δ) :
    ∀ (l1 : List α) (l2 : List β) (l3 : List γ),
      (zipWith3 f l1 l2 l3).length = min l1.length (min l2.length l3.length)
  | [], l2, l3 => by simp [zipWith3]
  | a :: as, [], l3 => by simp [zipWith3]
  | a :: as, b :: bs, [] => by simp [zipWith3]
  | a :: as, b :: bs, c :: cs => by
      simp [zipWith3, zipWith3_length f as bs cs]
      omega

theorem replicate_getElem? {α : Type} (a : α) :
    ∀ (n i : Nat), i < n → (List.replicate n a)[i]? = some a
  | 0, i, h => by omega
  | n + 1, 0, _ => by simp [List.replicate_succ]
  | n + 1, i + 1, h => by
      simp [List.replicate_succ]
      exact replicate_getElem? a n i (by omega)

end Viswsl

namespace Viswsl

/-- C3: for every module state (any tables and normalization parameters),
every dropout mode and every dropout draw, every token array and every
batch element b and position i whose token is the padding id, the (b, i)
vector of the forward output is all zero.  The mask multiply is the last
step of forward, after layer norm and dropout, so this holds whatever
those stages produced. -/
theorem embedding_padding_zeroed (m : WordAndPositionalEmbedding) (training : Bool)
    (keep : Nat → Nat → Nat → Bool) (tokens : List (List Nat)) (b i : Nat)
    (row : List Nat)
    (hrect : ∀ r ∈ tokens, r.length = seqLen tokens)
    (hb : tokens[b]? = some row)
    (hi : row[i]? = some m.padding_idx) :
    outAt (forward m training keep tokens) b i
      = List.replicate (outAt (forward m training keep tokens) b i).length 0 := by
  refine List.eq_replicate_of_mem ?_
  rcases hwe : mapE (fun r => mapE (embLookup m.words) r) tokens with e | we
  · simp [forward, outAt, hwe]
  rcases hpe : mapE (fun r => mapE (embLookup m.positions) r)
      (makePositionIndices tokens.length (seqLen tokens)) with e | pe
  · simp [forward, outAt, hwe, hpe]
  have hblt : b < tokens.length := by
    by_contra hcon
    push_neg at hcon
    rw [List.getElem?_eq_none hcon] at hb
    cases hb
  have hrow : row ∈ tokens := List.getElem?_mem hb
  have hrl : row.length = seqLen tokens := hrect row hrow
  have hilt : i < row.length := by
    by_contra hcon
    push_neg at hcon
    rw [List.getElem?_eq_none hcon] at hi
    cases hi
  obtain ⟨wrow, hwrowF, hwrow⟩ := mapE_getElem? _ tokens we b row hwe hb
  obtain ⟨wvec, hwvecF, hwvec⟩ := mapE_getElem? _ row wrow i m.padding_idx hwrowF hi
  have hposIdx : (makePositionIndices tokens.length (seqLen tokens))[b]?
      = some (List.range (seqLen tokens)) := replicate_getElem? _ _ b hblt
  obtain ⟨prow, hprowF, hprow⟩ := mapE_getElem? _ _ pe b _ hpe hposIdx
  have hir : (List.range (seqLen tokens))[i]? = some i :=
    List.getElem?_range (by omega)
  obtain ⟨pvec, hpvecF, hpvec⟩ := mapE_getElem? _ _ prow i i hprowF hir
  have hsrow : (List.zipWith (List.zipWith (List.zipWith (fun a b => a + b))) we pe)[b]?
      = some (List.zipWith (List.zipWith (fun a b => a + b)) wrow prow) :=
    zipWith_getElem?_some _ we pe b wrow prow hwrow hprow
  have hsvec : (List.zipWith (List.zipWith (fun a b => a + b)) wrow prow)[i]?
      = some (List.zipWith (fun a b => a + b) wvec pvec) :=
    zipWith_getElem?_some _ wrow prow i wvec pvec hwvec hpvec
  set nf := layerNorm m.ln_weight m.ln_bias with hnf
  set srow := List.zipWith (List.zipWith (fun a b => a + b)) wrow prow with hsrowd
  set svec := List.zipWith (fun a b => a + b) wvec pvec with hsvecd
  have hnrow : ((List.zipWith (List.zipWith (List.zipWith (fun a b => a + b))) we pe).map
      (List.map nf))[b]? = some (List.map nf srow) := by
    rw [List.getElem?_map, hsrow]
    rfl
  have hnvec : (List.map nf srow)[i]? = some (nf svec) := by
    rw [List.getElem?_map, hsvec]
    rfl
  -- dropped entry exists whatever the mode
  have hdrop : ∃ dvec, ((dropoutApply training m.dropout keep
      ((List.zipWith (List.zipWith (List.zipWith (fun a b => a + b))) we pe).map
        (List.map nf)))[b]?.getD [])[i]? = some dvec := by
    cases training with
    | false =>
      refine ⟨nf svec, ?_⟩
      simp [dropoutApply, hnrow, hnvec]
    | true =>
      refine ⟨mapIdxQ (fun h q => if keep (0 + b) (0 + i) h then q / (1 - m.dropout) else 0)
          (nf svec), ?_⟩
      simp only [dropoutApply, if_true, mapIdxQ]
      rw [mapIdxFrom_getElem? _ 0 _ b _ hnrow]
      simp only [Option.getD_some]
      rw [mapIdxFrom_getElem? _ 0 _ i _ hnvec]
  obtain ⟨dvec, hdvec⟩ := hdrop
  intro x hx
  simp only [forward, hwe, hpe, outAt] at hx
  rcases hdb : (dropoutApply training m.dropout keep
      ((List.zipWith (List.zipWith (List.zipWith (fun a b => a + b))) we pe).map
        (List.map nf)))[b]? with _ | drow
  · simp [hdb] at hdvec
  · have hmrow : (List.zipWith (fun tokRow embRow =>
        List.zipWith (fun t vec => vec.map (fun q =>
          q * (if t = m.padding_idx then 0 else 1))) tokRow embRow) tokens
        (dropoutApply training m.dropout keep
          ((List.zipWith (List.zipWith (List.zipWith (fun a b => a + b))) we pe).map
            (List.map nf))))[b]? = some (List.zipWith (fun t vec => vec.map (fun q =>
          q * (if t = m.padding_idx then 0 else 1))) row drow) :=
      zipWith_getElem?_some _ tokens _ b row drow hb hdb
    rw [hdb] at hdvec
    simp only [Option.getD_some] at hdvec
    have hmvec : (List.zipWith (fun t vec => vec.map (fun q =>
        q * (if t = m.padding_idx then 0 else 1))) row drow)[i]?
        = some (dvec.map (fun q => q * (if m.padding_idx = m.padding_idx then 0 else 1))) :=
      zipWith_getElem?_some _ row drow i m.padding_idx dvec hi hdvec
    rw [hmrow] at hx
    simp only [Option.getD_some] at hx
    rw [hmvec] at hx
    simp only [Option.getD_some, List.mem_map] at hx
    obtain ⟨q, _, hq⟩ := hx
    simpa using hq.symm

end Viswsl

namespace Viswsl

theorem embLookup_ok (table : List (List ℚ)) (idx : Nat) (v : List ℚ)
    (h : embLookup table idx = .ok v) : table[idx]? = some v := by
  unfold embLookup at h
  rcases hg : table[idx]? with _ | w
  · rw [hg] at h; cases h
  · rw [hg] at h
    simpa using h

theorem getElem?_some_lt {α : Type} (l : List α) (i : Nat) (a : α)
    (h : l[i]? = some a) : i < l.length := by
  by_contra hcon
  push_neg at hcon
  rw [List.getElem?_eq_none hcon] at h
  cases h

/-- C4: for every well-formed module state and rectangular token array of
shape [B, T] with in-vocabulary tokens: if T is at most
max_sequence_length, forward succeeds with output of shape exactly
[B, T, hidden_size]; if T exceeds max_sequence_length (and the batch is
nonempty), forward fails with RangeError. -/
theorem embedding_shape_contract (m : WordAndPositionalEmbedding) (training : Bool)
    (keep : Nat → Nat → Nat → Bool) (tokens : List (List Nat))
    (hwf : m.wf = true)
    (hrect : ∀ r ∈ tokens, r.length = seqLen tokens)
    (hvalid : ∀ r ∈ tokens, ∀ t ∈ r, t < m.vocab_size) :
    (seqLen tokens ≤ m.max_sequence_length →
      ∃ out, forward m training keep tokens = .ok out ∧
        out.length = tokens.length ∧
        ∀ r2 ∈ out, r2.length = seqLen tokens ∧
          ∀ vec ∈ r2, vec.length = m.hidden_size) ∧
    (m.max_sequence_length < seqLen tokens → tokens ≠ [] →
      forward m training keep tokens = .error .RangeError) := by
  simp only [WordAndPositionalEmbedding.wf, Bool.and_eq_true, beq_iff_eq,
    List.all_eq_true] at hwf
  obtain ⟨⟨⟨⟨⟨hwlen, hwrows⟩, hplen⟩, hprows⟩, hlnw⟩, hlnb⟩ := hwf
  have hwordOk : ∃ we, mapE (fun r => mapE (embLookup m.words) r) tokens = .ok we := by
    apply mapE_ok_of_all
    intro r hr
    apply mapE_ok_of_all
    intro t ht
    have htv : t < m.words.length := by
      rw [hwlen]
      exact hvalid r hr t ht
    refine ⟨m.words[t], ?_⟩
    simp [embLookup, List.getElem?_eq_getElem htv]
  obtain ⟨we, hwe⟩ := hwordOk
  have hwel := mapE_length _ tokens we hwe
  constructor
  · -- success branch
    intro hT
    have hposOk : ∃ pe, mapE (fun r => mapE (embLookup m.positions) r)
        (makePositionIndices tokens.length (seqLen tokens)) = .ok pe := by
      apply mapE_ok_of_all
      intro r hr
      have hrange : r = List.range (seqLen tokens) := List.eq_of_mem_replicate hr
      subst hrange
      apply mapE_ok_of_all
      intro i2 hi2
      have hi2T : i2 < m.positions.length := by
        rw [hplen]
        have := List.mem_range.mp hi2
        omega
      refine ⟨m.positions[i2], ?_⟩
      simp [embLookup, List.getElem?_eq_getElem hi2T]
    obtain ⟨pe, hpe⟩ := hposOk
    have hpel := mapE_length _ _ pe hpe
    have hpilen : (makePositionIndices tokens.length (seqLen tokens)).length
        = tokens.length := by simp [makePositionIndices]
    refine ⟨List.zipWith (fun tokRow embRow =>
        List.zipWith (fun t vec => vec.map (fun q =>
          q * (if t = m.padding_idx then 0 else 1))) tokRow embRow) tokens
        (dropoutApply training m.dropout keep
          ((List.zipWith (List.zipWith (List.zipWith (fun a b => a + b))) we pe).map
            (List.map (layerNorm m.ln_weight m.ln_bias)))),
      by simp only [forward, hwe, hpe], ?_, ?_⟩
    · -- outer length
      cases training <;>
        simp [dropoutApply, mapIdxQ, mapIdxFrom_length, hwel, hpel, hpilen]
    · -- row and vec facts
      intro r2 hr2
      obtain ⟨b2, hb2⟩ := List.mem_iff_getElem?.mp hr2
      have hb2all : b2 < (List.zipWith (fun tokRow embRow =>
          List.zipWith (fun t vec => vec.map (fun q =>
            q * (if t = m.padding_idx then 0 else 1))) tokRow embRow) tokens
          (dropoutApply training m.dropout keep
            ((List.zipWith (List.zipWith (List.zipWith (fun a b => a + b))) we pe).map
              (List.map (layerNorm m.ln_weight m.ln_bias))))).length :=
        getElem?_some_lt _ b2 r2 hb2
      rw [List.length_zipWith] at hb2all
      have hb2tok : b2 < tokens.length := lt_of_lt_of_le hb2all (min_le_left _ _)
      set nf := layerNorm m.ln_weight m.ln_bias with hnfd
      set row2 := tokens[b2] with hrow2d
      have hrow2 : tokens[b2]? = some row2 := List.getElem?_eq_getElem hb2tok
      have hrow2mem : row2 ∈ tokens := List.getElem?_mem hrow2
      have hrow2len : row2.length = seqLen tokens := hrect row2 hrow2mem
      obtain ⟨wrow2, hwrow2F, hwrow2⟩ := mapE_getElem? _ tokens we b2 row2 hwe hrow2
      have hposIdx2 : (makePositionIndices tokens.length (seqLen tokens))[b2]?
          = some (List.range (seqLen tokens)) := replicate_getElem? _ _ b2 hb2tok
      obtain ⟨prow2, hprow2F, hprow2⟩ := mapE_getElem? _ _ pe b2 _ hpe hposIdx2
      have hsrow2 : (List.zipWith (List.zipWith (List.zipWith (fun a b => a + b))) we pe)[b2]?
          = some (List.zipWith (List.zipWith (fun a b => a + b)) wrow2 prow2) :=
        zipWith_getElem?_some _ we pe b2 wrow2 prow2 hwrow2 hprow2
      set srow2 := List.zipWith (List.zipWith (fun a b => a + b)) wrow2 prow2 with hsrow2d
      have hnrow2 : ((List.zipWith (List.zipWith (List.zipWith (fun a b => a + b))) we pe).map
          (List.map nf))[b2]? = some (List.map nf srow2) := by
        rw [List.getElem?_map, hsrow2]
        rfl
      have hwrow2len : wrow2.length = row2.length := mapE_length _ row2 wrow2 hwrow2F
      have hprow2len : prow2.length = seqLen tokens := by
        rw [mapE_length _ _ prow2 hprow2F, List.length_range]
      have hsrow2len : srow2.length = seqLen tokens := by
        rw [hsrow2d, List.length_zipWith, hwrow2len, hrow2len, hprow2len, min_self]
      -- dropout stage facts
      have hdropRow : ∃ drow2, (dropoutApply training m.dropout keep
          ((List.zipWith (List.zipWith (List.zipWith (fun a b => a + b))) we pe).map
            (List.map nf)))[b2]? = some drow2 ∧ drow2.length = srow2.length ∧
          ∀ (i2 : Nat) (v : List ℚ), drow2[i2]? = some v →
            ∃ nv : List ℚ, (List.map nf srow2)[i2]? = some nv ∧ v.length = nv.length := by
        cases training with
        | false =>
          refine ⟨List.map nf srow2, by simpa [dropoutApply] using hnrow2, by simp, ?_⟩
          intro i2 v hv
          exact ⟨v, hv, rfl⟩
        | true =>
          refine ⟨mapIdxQ (fun i2 vec => mapIdxQ (fun h q =>
              if keep (0 + b2) i2 h then q / (1 - m.dropout) else 0) vec)
              (List.map nf srow2), ?_, ?_, ?_⟩
          · simp only [dropoutApply, if_true, mapIdxQ]
            rw [mapIdxFrom_getElem? _ 0 _ b2 _ hnrow2]
          · simp [mapIdxQ, mapIdxFrom_length]
          · intro i2 v hv
            have hi2lt : i2 < (mapIdxQ (fun i2 vec => mapIdxQ (fun h q =>
                if keep (0 + b2) i2 h then q / (1 - m.dropout) else 0) vec)
                (List.map nf srow2)).length := getElem?_some_lt _ i2 v hv
            rw [mapIdxQ, mapIdxFrom_length] at hi2lt
            have hnv : (List.map nf srow2)[i2]? = some (List.map nf srow2)[i2] :=
              List.getElem?_eq_getElem hi2lt
            refine ⟨(List.map nf srow2)[i2], hnv, ?_⟩
            have := mapIdxFrom_getElem? (fun i2 vec => mapIdxQ (fun h q =>
                if keep (0 + b2) i2 h then q / (1 - m.dropout) else 0) vec) 0
                (List.map nf srow2) i2 _ hnv
            rw [mapIdxQ] at hv
            rw [this] at hv
            simp only [Option.some.injEq] at hv
            rw [← hv]
            simp [mapIdxQ, mapIdxFrom_length]
      obtain ⟨drow2, hdrow2, hdrow2len, hdrow2el⟩ := hdropRow
      have hr2eq : (List.zipWith (fun tokRow embRow =>
          List.zipWith (fun t vec => vec.map (fun q =>
            q * (if t = m.padding_idx then 0 else 1))) tokRow embRow) tokens
          (dropoutApply training m.dropout keep
            ((List.zipWith (List.zipWith (List.zipWith (fun a b => a + b))) we pe).map
              (List.map nf))))[b2]?
          = some (List.zipWith (fun t vec => vec.map (fun q =>
            q * (if t = m.padding_idx then 0 else 1))) row2 drow2) :=
        zipWith_getElem?_some _ tokens _ b2 row2 drow2 hrow2 hdrow2
      rw [hb2] at hr2eq
      simp only [Option.some.injEq] at hr2eq
      subst hr2eq
      constructor
      · rw [List.length_zipWith, hrow2len, hdrow2len, hsrow2len, min_self]
      · intro vec hvec
        obtain ⟨i2, hi2⟩ := List.mem_iff_getElem?.mp hvec
        have hi2lt : i2 < (List.zipWith (fun t vec => vec.map (fun q =>
            q * (if t = m.padding_idx then 0 else 1))) row2 drow2).length :=
          getElem?_some_lt _ i2 vec hi2
        rw [List.length_zipWith] at hi2lt
        have hi2tok : i2 < row2.length := lt_of_lt_of_le hi2lt (min_le_left _ _)
        have hi2drop : i2 < drow2.length := lt_of_lt_of_le hi2lt (min_le_right _ _)
        have htok2 : row2[i2]? = some row2[i2] := List.getElem?_eq_getElem hi2tok
        have hdv2 : drow2[i2]? = some drow2[i2] := List.getElem?_eq_getElem hi2drop
        have hveq := zipWith_getElem?_some (fun t vec => vec.map (fun q =>
            q * (if t = m.padding_idx then 0 else 1))) row2 drow2 i2 _ _ htok2 hdv2
        rw [hi2] at hveq
        simp only [Option.some.injEq] at hveq
        subst hveq
        rw [List.length_map]
        -- length of drow2[i2]
        obtain ⟨nv, hnv, hlen⟩ := hdrow2el i2 _ hdv2
        rw [hlen]
        -- nv is nf applied to the summed vector
        have hi2s : i2 < srow2.length := by
          rw [hsrow2len, ← hrow2len]
          exact hi2tok
        have hsv2 : srow2[i2]? = some srow2[i2] := List.getElem?_eq_getElem hi2s
        rw [List.getElem?_map, hsv2] at hnv
        simp at hnv
        subst hnv
        -- every summed vector has length hidden_size
        obtain ⟨wvec2, hwvec2F, hwvec2⟩ := mapE_getElem? _ row2 wrow2 i2 _ hwrow2F htok2
        have hir2 : (List.range (seqLen tokens))[i2]? = some i2 :=
          List.getElem?_range (by omega)
        obtain ⟨pvec2, hpvec2F, hpvec2⟩ := mapE_getElem? _ _ prow2 i2 i2 hprow2F hir2
        have hsvec2 : srow2[i2]? = some (List.zipWith (fun a b => a + b) wvec2 pvec2) :=
          zipWith_getElem?_some _ wrow2 prow2 i2 wvec2 pvec2 hwvec2 hpvec2
        rw [hsv2] at hsvec2
        simp only [Option.some.injEq] at hsvec2
        rw [hsvec2]
        have hwvlen : wvec2.length = m.hidden_size :=
          hwrows wvec2 (List.getElem?_mem (embLookup_ok _ _ _ hwvec2F))
        have hpvlen : pvec2.length = m.hidden_size :=
          hprows pvec2 (List.getElem?_mem (embLookup_ok _ _ _ hpvec2F))
        rw [hnfd]
        unfold layerNorm
        rw [zipWith3_length, List.length_zipWith, hwvlen, hpvlen, hlnw, hlnb]
        simp
  · -- error branch
    intro hT hne
    cases tokens with
    | nil => exact absurd rfl hne
    | cons t0 trest =>
      have hbad : mapE (fun r => mapE (embLookup m.positions) r)
          (makePositionIndices (t0 :: trest).length (seqLen (t0 :: trest)))
          = .error .RangeError := by
        have hfirst : mapE (embLookup m.positions) (List.range (seqLen (t0 :: trest)))
            = .error .RangeError := by
          apply mapE_error_of_mem
          · intro a _
            rcases hg : embLookup m.positions a with e2 | bv
            · cases e2
              exact Or.inr rfl
            · exact Or.inl ⟨bv, rfl⟩
          · refine ⟨m.max_sequence_length, List.mem_range.mpr hT, ?_⟩
            simp [embLookup, List.getElem?_eq_none (le_of_eq hplen)]
        simp only [makePositionIndices, List.length_cons, List.replicate_succ]
        simp [mapE, hfirst]
      simp only [forward, hwe, hbad]

/-- Witness for C3: on the module embC3 in eval mode with input [[0, 1]],
position (0, 0) holds the padding token 0 and the output vector there is
all zero. -/
theorem embedding_padding_zeroed_witness :
    outAt (forward embC3 false (fun _ _ _ => true) [[0, 1]]) 0 0
      = List.replicate (outAt (forward embC3 false (fun _ _ _ => true) [[0, 1]]) 0 0).length
          0 :=
  embedding_padding_zeroed embC3 false (fun _ _ _ => true) [[0, 1]] 0 0 [0, 1]
    (by decide) (by rfl) (by rfl)

/-- Witness for C4: the module embC4 with input [[1, 2]] of shape [1, 2]
satisfies both halves of the shape contract (the sequence length 2 equals
the maximum, so the success half applies and the failure half is
vacuous). -/
theorem embedding_shape_contract_witness :
    (seqLen [[1, 2]] ≤ embC4.max_sequence_length →
      ∃ out, forward embC4 false (fun _ _ _ => true) [[1, 2]] = .ok out ∧
        out.length = ([[1, 2]] : List (List Nat)).length ∧
        ∀ r2 ∈ out, r2.length = seqLen [[1, 2]] ∧
          ∀ vec ∈ r2, vec.length = embC4.hidden_size) ∧
    (embC4.max_sequence_length < seqLen [[1, 2]] →
      ([[1, 2]] : List (List Nat)) ≠ [] →
      forward embC4 false (fun _ _ _ => true) [[1, 2]] = .error .RangeError) :=
  embedding_shape_contract embC4 false (fun _ _ _ => true) [[1, 2]]
    (by decide) (by decide) (by decide)

end Viswsl

